import Mathlib

/-!
Verification of the AI_RAG knowledge-base core: a shallow embedding of
`my_knowledge_base/vector_db.py` (vector index lifecycle: init/load, dedup-safe
append, save, L2 search), `my_knowledge_base/file_processor.py`
(`preprocess_text`, the structure tagger) and `my_knowledge_base/text_chunker.py`
(`StructuredTextLoader.load` and the chunking in `chunk_and_save_parsed_files`).
Real-number vectors are modelled over ℚ; the external FAISS flat-L2 index and
the external langchain splitter are modelled by explicit definitions noted at
their declaration sites.
-/

namespace RagKB

/-- One entry of a per-file `metadata.json` produced by
`chunk_and_save_parsed_files` (text_chunker.py lines 150-164): the fields of
`chunk_info` that `process_chunks` reads (`chunk_meta['text']`,
`chunk_meta['chunk_id']`, and inside `chunk_meta['metadata']`: `source`,
`file_type`, `original_name`, `start_index`, `end_index`). -/
structure ChunkMeta where
  text : String
  chunk_id : String
  source : String
  file_type : String
  original_name : String
  start_index : Nat
  end_index : Nat
deriving DecidableEq, Repr

/-- One element of `self.vector_db['metadata']`, as built by `process_chunks`
(vector_db.py lines 125-133). -/
structure IndexRecord where
  text : String
  chunk_id : String
  source_path : String
  file_type : String
  original_name : String
  start_index : Nat
  end_index : Nat
deriving DecidableEq, Repr

/-- The in-memory state `self.vector_db`: the FAISS `IndexFlatL2` is modelled
by its dimension together with the ordered list of stored vectors (append-only,
position = record id), and `metadata` is the parallel record list
(vector_db.py lines 39-53). -/
structure VectorDB where
  dimension : Nat
  vectors : List (List ℚ)
  metadata : List IndexRecord
deriving DecidableEq, Repr

/-- The freshly created database of `_init_vector_db` before any load:
`faiss.IndexFlatL2(self.dimension)` plus `metadata = []`
(vector_db.py lines 40-41). -/
def emptyDB (d : Nat) : VectorDB :=
  { dimension := d, vectors := [], metadata := [] }

/-- The pair of on-disk artifacts `faiss.index` / `metadata.json`.
`indexReadable = false` models `faiss.read_index` raising (the `except` branch
of `_init_vector_db`); `metadataJson = none` models `json.load` raising after
the index was already read. -/
structure Persisted where
  indexDimension : Nat
  indexVectors : List (List ℚ)
  indexReadable : Bool
  metadataJson : Option (List IndexRecord)
deriving DecidableEq, Repr

/-- `_init_vector_db` (vector_db.py lines 34-53): start from a fresh empty
index of the model dimension; if both files exist, try to read them, and on
any exception keep whatever had been assigned so far (a failed index read
leaves the fresh index and empty metadata; a failed metadata parse leaves the
loaded index with empty metadata). No dimension comparison is performed
anywhere in this function. -/
def initVectorDb (d : Nat) : Option Persisted → VectorDB
  | none => emptyDB d
  | some p =>
      if p.indexReadable then
        { dimension := p.indexDimension,
          vectors := p.indexVectors,
          metadata := p.metadataJson.getD [] }
      else
        emptyDB d

/-- `save_vector_db` (vector_db.py lines 160-171): writes the FAISS index and
the metadata list to disk; the resulting artifact pair. -/
def saveVectorDb (db : VectorDB) : Persisted :=
  { indexDimension := db.dimension,
    indexVectors := db.vectors,
    indexReadable := true,
    metadataJson := some db.metadata }

/-- The dedup-key membership test of `process_chunks` (vector_db.py lines
118-120): `any(m['source_path'] == cm.source and m['chunk_id'] == cm.chunk_id
for m in self.vector_db['metadata'])`. -/
def dedupKeyExists (md : List IndexRecord) (cm : ChunkMeta) : Bool :=
  md.any (fun m => m.source_path == cm.source && m.chunk_id == cm.chunk_id)

/-- The candidate records of one batch that survive the dedup check of
`process_chunks` (vector_db.py lines 116-121): the check compares each
candidate against the stored metadata only. -/
def selectNew (md : List IndexRecord) (cms : List ChunkMeta) : List ChunkMeta :=
  cms.filter (fun cm => !(dedupKeyExists md cm))

/-- The metadata record appended for a kept candidate
(vector_db.py lines 125-133). -/
def recordOf (cm : ChunkMeta) : IndexRecord :=
  { text := cm.text,
    chunk_id := cm.chunk_id,
    source_path := cm.source,
    file_type := cm.file_type,
    original_name := cm.original_name,
    start_index := cm.start_index,
    end_index := cm.end_index }

/-- `_add_to_vector_db` (vector_db.py lines 149-158): append the vectors to the
FAISS index and extend the metadata list. -/
def addToVectorDb (db : VectorDB) (vectors : List (List ℚ)) (ml : List IndexRecord) : VectorDB :=
  { db with vectors := db.vectors ++ vectors, metadata := db.metadata ++ ml }

/-- The per-file body of `process_chunks` (vector_db.py lines 112-141) for one
loaded `chunks_metadata` batch: filter out candidates whose dedup key is
already stored, embed the surviving texts (`embed_batch` is the external
sentence-transformer, passed in as `embed`), and add them; if nothing
survives, `if texts:` skips the add entirely. -/
def processFileChunks (embed : String → List ℚ) (db : VectorDB) (cms : List ChunkMeta) : VectorDB :=
  let newCms := selectNew db.metadata cms
  if newCms.isEmpty then db
  else addToVectorDb db (newCms.map (fun cm => embed cm.text)) (newCms.map recordOf)

/-- `process_chunks` over a whole chunk directory: the per-file batches are
processed in sequence against the single in-memory database. -/
def processBatches (embed : String → List ℚ) (db : VectorDB) (batches : List (List ChunkMeta)) : VectorDB :=
  batches.foldl (processFileChunks embed) db

lemma dedupKeyExists_append (md md2 : List IndexRecord) (cm : ChunkMeta) :
    dedupKeyExists (md ++ md2) cm = (dedupKeyExists md cm || dedupKeyExists md2 cm) := by
  simp [dedupKeyExists, List.any_append]

lemma dedupKeyExists_recordOf (cm : ChunkMeta) :
    dedupKeyExists [recordOf cm] cm = true := by
  simp [dedupKeyExists, recordOf]

lemma processFileChunks_metadata (embed : String → List ℚ) (db : VectorDB) (cms : List ChunkMeta) :
    (processFileChunks embed db cms).metadata
      = db.metadata ++ (selectNew db.metadata cms).map recordOf := by
  unfold processFileChunks
  by_cases h : (selectNew db.metadata cms).isEmpty
  · rw [List.isEmpty_iff] at h
    simp [h, addToVectorDb]
  · simp [h, addToVectorDb]

lemma processFileChunks_vectors (embed : String → List ℚ) (db : VectorDB) (cms : List ChunkMeta) :
    (processFileChunks embed db cms).vectors
      = db.vectors ++ (selectNew db.metadata cms).map (fun cm => embed cm.text) := by
  unfold processFileChunks
  by_cases h : (selectNew db.metadata cms).isEmpty
  · rw [List.isEmpty_iff] at h
    simp [h, addToVectorDb]
  · simp [h, addToVectorDb]

lemma processFileChunks_dimension (embed : String → List ℚ) (db : VectorDB) (cms : List ChunkMeta) :
    (processFileChunks embed db cms).dimension = db.dimension := by
  unfold processFileChunks
  by_cases h : (selectNew db.metadata cms).isEmpty
  · simp [h]
  · simp [h, addToVectorDb]

/-- Every candidate of the batch has its key stored after the batch ran. -/
lemma dedupKeyExists_after (embed : String → List ℚ) (db : VectorDB) (cms : List ChunkMeta)
    (cm : ChunkMeta) (hmem : cm ∈ cms) :
    dedupKeyExists (processFileChunks embed db cms).metadata cm = true := by
  rw [processFileChunks_metadata, dedupKeyExists_append]
  by_cases h : dedupKeyExists db.metadata cm
  · simp [h]
  · have hsel : cm ∈ selectNew db.metadata cms := by
      simp [selectNew, List.mem_filter, hmem, h]
    have : dedupKeyExists ((selectNew db.metadata cms).map recordOf) cm = true := by
      simp only [dedupKeyExists, List.any_eq_true]
      exact ⟨recordOf cm, List.mem_map_of_mem recordOf hsel, by simp [recordOf]⟩
    simp [this]

lemma selectNew_after (embed : String → List ℚ) (db : VectorDB) (cms : List ChunkMeta) :
    selectNew (processFileChunks embed db cms).metadata cms = [] := by
  unfold selectNew
  rw [List.filter_eq_nil_iff]
  intro cm hmem
  simp [dedupKeyExists_after embed db cms cm hmem]

/-- C1. Re-running `process_chunks` with the same candidate batch adds nothing
the second time: every added record is one of the dedup-filtered candidates
(added exactly once, with its embedding), a candidate whose key
`(source_path, chunk_id)` is already stored is skipped — it is neither mapped
through `embed` nor appended — and the second run returns the database of the
first run unchanged, both in the vector store and in the metadata list. -/
theorem C1_append_idempotent (embed : String → List ℚ) (db : VectorDB) (cms : List ChunkMeta) :
    processFileChunks embed (processFileChunks embed db cms) cms = processFileChunks embed db cms
    ∧ (processFileChunks embed db cms).metadata
        = db.metadata ++ (selectNew db.metadata cms).map recordOf
    ∧ (processFileChunks embed db cms).vectors
        = db.vectors ++ (selectNew db.metadata cms).map (fun cm => embed cm.text)
    ∧ ∀ cm, dedupKeyExists db.metadata cm = true → cm ∉ selectNew db.metadata cms := by
  refine ⟨?_, processFileChunks_metadata embed db cms, processFileChunks_vectors embed db cms, ?_⟩
  · conv_lhs => rw [processFileChunks]
    simp [selectNew_after]
  · intro cm hkey hmem
    have := (List.mem_filter.mp hmem).2
    simp [hkey] at this

/-- Witness for C1 at a concrete database and batch. -/
theorem C1_append_idempotent_witness :
    processFileChunks (fun _ => [(1 : ℚ)])
        (processFileChunks (fun _ => [(1 : ℚ)]) (emptyDB 1)
          [⟨"t", "1_1", "s", "txt", "n", 0, 1⟩])
        [⟨"t", "1_1", "s", "txt", "n", 0, 1⟩]
      = processFileChunks (fun _ => [(1 : ℚ)]) (emptyDB 1)
          [⟨"t", "1_1", "s", "txt", "n", 0, 1⟩] :=
  (C1_append_idempotent (fun _ => [(1 : ℚ)]) (emptyDB 1)
    [⟨"t", "1_1", "s", "txt", "n", 0, 1⟩]).1

/-- No two records of `md` share the dedup key `(source_path, chunk_id)`. -/
def mdKeysNodup (md : List IndexRecord) : Prop :=
  md.Pairwise (fun a b => ¬(a.source_path = b.source_path ∧ a.chunk_id = b.chunk_id))

/-- No two candidates of one batch share the dedup key. -/
def batchKeysNodup (cms : List ChunkMeta) : Prop :=
  cms.Pairwise (fun a b => ¬(a.source = b.source ∧ a.chunk_id = b.chunk_id))

/-- C2 counterexample. Presenting the same dedup key twice inside one and the
same batch to an empty index stores two records with equal
`(source_path, chunk_id)`: the dedup check of `process_chunks` compares each
candidate only against the already-stored metadata, never against the other
candidates of the batch, so the claimed uniqueness invariant fails. -/
theorem C2_dup_in_batch_counterexample :
    ¬ mdKeysNodup
        (processBatches (fun _ => [(1 : ℚ)]) (emptyDB 1)
          [[⟨"t", "1_1", "s", "txt", "n", 0, 1⟩, ⟨"t", "1_1", "s", "txt", "n", 0, 1⟩]]).metadata := by
  intro h
  have hmd : (processBatches (fun _ => [(1 : ℚ)]) (emptyDB 1)
      [[⟨"t", "1_1", "s", "txt", "n", 0, 1⟩, ⟨"t", "1_1", "s", "txt", "n", 0, 1⟩]]).metadata
      = [⟨"t", "1_1", "s", "txt", "n", 0, 1⟩, ⟨"t", "1_1", "s", "txt", "n", 0, 1⟩] := by
    rfl
  rw [hmd] at h
  cases h with
  | cons hrel ht => exact hrel _ (List.mem_singleton.mpr rfl) ⟨rfl, rfl⟩

lemma mdKeysNodup_step (embed : String → List ℚ) (db : VectorDB) (cms : List ChunkMeta)
    (hdb : mdKeysNodup db.metadata) (hcms : batchKeysNodup cms) :
    mdKeysNodup (processFileChunks embed db cms).metadata := by
  unfold mdKeysNodup
  rw [processFileChunks_metadata, List.pairwise_append]
  refine ⟨hdb, ?_, ?_⟩
  · exact List.Pairwise.map recordOf
      (fun a b hab hk => hab ⟨hk.1, hk.2⟩)
      (List.Pairwise.sublist (List.filter_sublist cms) hcms)
  · intro a ha b hb
    rcases List.mem_map.mp hb with ⟨cm, hcm, rfl⟩
    have hnew : dedupKeyExists db.metadata cm = false := by
      have := (List.mem_filter.mp hcm).2
      simpa using this
    have hall := List.any_eq_false.mp hnew a ha
    intro hk
    apply hall
    simp [recordOf] at hk
    simp [hk.1, hk.2]

instance : DecidablePred batchKeysNodup := fun cms => by
  unfold batchKeysNodup; infer_instance

instance : DecidablePred mdKeysNodup := fun md => by
  unfold mdKeysNodup; infer_instance

/-- C2 amended. Starting from the empty index, any sequence of
`process_chunks` batches preserves uniqueness of the dedup key
`(source_path, chunk_id)` provided each individual batch carries pairwise
distinct keys; the dedup check only guards against keys already stored before
the batch, so distinctness inside each batch is a genuine side condition. -/
theorem C2_unique_keys_of_distinct_batches (embed : String → List ℚ) (d : Nat)
    (batches : List (List ChunkMeta)) (h : ∀ b ∈ batches, batchKeysNodup b) :
    mdKeysNodup (processBatches embed (emptyDB d) batches).metadata := by
  suffices hgen : ∀ (db : VectorDB), mdKeysNodup db.metadata →
      mdKeysNodup (processBatches embed db batches).metadata by
    exact hgen (emptyDB d) List.Pairwise.nil
  induction batches with
  | nil => intro db hdb; exact hdb
  | cons b bs ih =>
      intro db hdb
      have hb : batchKeysNodup b := h b (List.mem_cons_self b bs)
      have hbs : ∀ x ∈ bs, batchKeysNodup x := fun x hx => h x (List.mem_cons_of_mem b hx)
      exact ih hbs (processFileChunks embed db b) (mdKeysNodup_step embed db b hdb hb)

/-- Witness for C2 (amended) on two batches with internally distinct keys. -/
theorem C2_unique_keys_of_distinct_batches_witness :
    mdKeysNodup (processBatches (fun _ => [(1 : ℚ)]) (emptyDB 1)
      [[⟨"t", "1_1", "s", "txt", "n", 0, 1⟩, ⟨"u", "1_2", "s", "txt", "n", 1, 2⟩],
       [⟨"t", "1_1", "s", "txt", "n", 0, 1⟩]]).metadata :=
  C2_unique_keys_of_distinct_batches (fun _ => [(1 : ℚ)]) 1
    [[⟨"t", "1_1", "s", "txt", "n", 0, 1⟩, ⟨"u", "1_2", "s", "txt", "n", 1, 2⟩],
     [⟨"t", "1_1", "s", "txt", "n", 0, 1⟩]]
    (by decide)

/-- The vector at position `i` is the embedding of the metadata record at
position `i`: the parallel-list correspondence of the spec's §3. -/
def Aligned (embed : String → List ℚ) (db : VectorDB) : Prop :=
  db.vectors = db.metadata.map (fun r => embed r.text)

lemma Aligned.length_eq (embed : String → List ℚ) (db : VectorDB) (h : Aligned embed db) :
    db.vectors.length = db.metadata.length := by
  rw [h, List.length_map]

lemma Aligned_processFileChunks (embed : String → List ℚ) (db : VectorDB)
    (cms : List ChunkMeta) (h : Aligned embed db) :
    Aligned embed (processFileChunks embed db cms) := by
  unfold Aligned
  rw [processFileChunks_metadata, processFileChunks_vectors, List.map_append, h,
    List.map_map]
  rfl

/-- C3. The fresh database, every `process_chunks` batch, and a
`save_vector_db` / `_init_vector_db` round trip all preserve the parallel-list
correspondence: the vector list is exactly the metadata list mapped through
the embedding of each record's text, so both lists have equal length and
position `i` of each refers to the same record. -/
theorem C3_parallel_alignment (embed : String → List ℚ) (d : Nat) (db : VectorDB)
    (cms : List ChunkMeta) (h : Aligned embed db) :
    Aligned embed (emptyDB d)
    ∧ Aligned embed (initVectorDb d none)
    ∧ Aligned embed (processFileChunks embed db cms)
    ∧ initVectorDb d (some (saveVectorDb db)) = db
    ∧ db.vectors.length = db.metadata.length
    ∧ (processFileChunks embed db cms).vectors.length
        = (processFileChunks embed db cms).metadata.length := by
  refine ⟨rfl, rfl, Aligned_processFileChunks embed db cms h, ?_, Aligned.length_eq embed db h,
    Aligned.length_eq embed _ (Aligned_processFileChunks embed db cms h)⟩
  simp [initVectorDb, saveVectorDb]

/-- Witness for C3 at a concrete aligned database. -/
theorem C3_parallel_alignment_witness :
    initVectorDb 1 (some (saveVectorDb
        ⟨1, [[(1 : ℚ)]], [⟨"t", "1_1", "s", "txt", "n", 0, 1⟩]⟩))
      = ⟨1, [[(1 : ℚ)]], [⟨"t", "1_1", "s", "txt", "n", 0, 1⟩]⟩ :=
  (C3_parallel_alignment (fun _ => [(1 : ℚ)]) 1
    ⟨1, [[(1 : ℚ)]], [⟨"t", "1_1", "s", "txt", "n", 0, 1⟩]⟩ [] (by rfl)).2.2.2.1

/-- C4 counterexample. Loading a persisted index of dimension 3 while the
configured embedding model has dimension 4 succeeds and proceeds with the
mismatched index as-is: `_init_vector_db` is total, performs no dimension
comparison, and returns the persisted vectors and metadata unchanged, so no
fatal error reaches the caller. -/
theorem C4_load_ignores_dimension_counterexample :
    initVectorDb 4 (some ⟨3, [[(0 : ℚ), 0, 0]], true, some []⟩)
        = ⟨3, [[(0 : ℚ), 0, 0]], []⟩
    ∧ (initVectorDb 4 (some ⟨3, [[(0 : ℚ), 0, 0]], true, some []⟩)).dimension ≠ 4 := by
  constructor
  · rfl
  · decide

/-- C4 amended. `_init_vector_db` performs no dimension check: whenever the
persisted index file is readable it returns the persisted dimension, vectors
and metadata unchanged — even when the persisted dimension differs from the
embedding model's — a metadata parse failure yields the loaded index with
empty metadata, and an unreadable index file (like absent files) silently
falls back to a fresh empty database of the model dimension instead of
surfacing a fatal error. -/
theorem C4_load_no_dimension_check (d : Nat) (p : Persisted)
    (hmis : p.indexDimension ≠ d) :
    initVectorDb d (some p)
        = (if p.indexReadable then
            ⟨p.indexDimension, p.indexVectors, p.metadataJson.getD []⟩
           else emptyDB d)
    ∧ (p.indexReadable = true → (initVectorDb d (some p)).dimension ≠ d)
    ∧ (p.indexReadable = true → p.metadataJson = none →
        (initVectorDb d (some p)).metadata = [])
    ∧ initVectorDb d none = emptyDB d := by
  refine ⟨rfl, ?_, ?_, rfl⟩
  · intro hr
    simp [initVectorDb, hr]
    exact hmis
  · intro hr hn
    simp [initVectorDb, hr, hn]

/-- Witness for C4 (amended) at the concrete mismatched artifact. -/
theorem C4_load_no_dimension_check_witness :
    (initVectorDb 4 (some ⟨3, [[(0 : ℚ), 0, 0]], true, some []⟩)).dimension ≠ 4 :=
  (C4_load_no_dimension_check 4 ⟨3, [[(0 : ℚ), 0, 0]], true, some []⟩
    (by decide)).2.1 rfl

/-- Squared Euclidean (L2) distance between two vectors: the value the flat-L2
index computes and returns as the raw score (FAISS `IndexFlatL2` reports
squared distances; ordering by them coincides with ordering by Euclidean
distance). -/
def sqDist (u v : List ℚ) : ℚ :=
  (List.zipWith (fun a b => (a - b) * (a - b)) u v).sum

/-- Ranking order of the modelled flat index: ascending distance, ties broken
by the smaller stored position, i.e. by insertion order. -/
def distLe (a b : Nat × ℚ) : Prop :=
  a.2 < b.2 ∨ (a.2 = b.2 ∧ a.1 ≤ b.1)

instance : DecidableRel distLe := fun a b => by unfold distLe; infer_instance

instance : IsTotal (Nat × ℚ) distLe where
  total a b := by
    unfold distLe
    rcases lt_trichotomy a.2 b.2 with h | h | h
    · exact Or.inl (Or.inl h)
    · rcases Nat.le_total a.1 b.1 with h1 | h1
      · exact Or.inl (Or.inr ⟨h, h1⟩)
      · exact Or.inr (Or.inr ⟨h.symm, h1⟩)
    · exact Or.inr (Or.inl h)

instance : IsTrans (Nat × ℚ) distLe where
  trans a b c hab hbc := by
    unfold distLe at *
    rcases hab with hab | ⟨hab, hab1⟩
    · rcases hbc with hbc | ⟨hbc, _⟩
      · exact Or.inl (hab.trans hbc)
      · exact Or.inl (hbc ▸ hab)
    · rcases hbc with hbc | ⟨hbc, hbc1⟩
      · exact Or.inl (hab ▸ hbc)
      · exact Or.inr ⟨hab.trans hbc, hab1.trans hbc1⟩

/-- The stored vectors scored against the query and ranked: this models the
external FAISS `IndexFlatL2.search` selection — exhaustive squared-L2 scoring,
ascending order, ties by stored id. -/
def rankedVectors (q : List ℚ) (vectors : List (List ℚ)) : List (Nat × ℚ) :=
  List.insertionSort distLe (vectors.map (sqDist q)).enum

/-- The raw `(indices, distances)` rows FAISS returns for one query: the `k`
best-ranked stored vectors, padded to length `k` with the invalid id `-1` when
fewer than `k` vectors are stored. -/
def faissSearchL2 (q : List ℚ) (vectors : List (List ℚ)) (k : Nat) : List (Int × ℚ) :=
  let top := (rankedVectors q vectors).take k
  top.map (fun p => ((p.1 : Int), p.2)) ++ List.replicate (k - top.length) ((-1 : Int), 0)

/-- One result row of `search` (vector_db.py lines 192-199): `score`, `text`,
`source`, `file_type`, `original_name` and the formatted `position` string.
The stored record's `chunk_id`, `start_index` and `end_index` fields are not
carried over (only the `position` rendering of the last two is). -/
structure SearchResult where
  score : ℚ
  text : String
  source : String
  file_type : String
  original_name : String
  position : String
deriving DecidableEq, Repr

def defaultRecord : IndexRecord := ⟨"", "", "", "", "", 0, 0⟩

/-- The result row built from a retrieved metadata record
(vector_db.py lines 191-199). -/
def resultOf (score : ℚ) (m : IndexRecord) : SearchResult :=
  { score := score,
    text := m.text,
    source := m.source_path,
    file_type := m.file_type,
    original_name := m.original_name,
    position := toString m.start_index ++ "-" ++ toString m.end_index }

/-- `search` (vector_db.py lines 173-201): embed the query, run the flat-L2
index search, keep the rows with a valid id (`idx >= 0`) and pair each with
fields of `metadata[idx]`. -/
def searchDb (embed : String → List ℚ) (db : VectorDB) (query : String) (k : Nat) :
    List SearchResult :=
  (faissSearchL2 (embed query) db.vectors k).filterMap (fun p =>
    if 0 ≤ p.1 then some (resultOf p.2 (db.metadata.getD p.1.toNat defaultRecord)) else none)

lemma filterMap_valid_rows (md : List IndexRecord) (l : List (Nat × ℚ)) :
    (l.map (fun p => ((p.1 : Int), p.2))).filterMap (fun p =>
        if 0 ≤ p.1 then some (resultOf p.2 (md.getD p.1.toNat defaultRecord)) else none)
      = l.map (fun p => resultOf p.2 (md.getD p.1 defaultRecord)) := by
  induction l with
  | nil => rfl
  | cons a l ih =>
      simp only [List.map_cons, List.filterMap_cons]
      rw [if_pos (Int.ofNat_nonneg a.1)]
      simp only [Int.toNat_ofNat]
      rw [ih]

lemma filterMap_pad_rows (md : List IndexRecord) (n : Nat) :
    (List.replicate n ((-1 : Int), (0 : ℚ))).filterMap (fun p =>
        if 0 ≤ p.1 then some (resultOf p.2 (md.getD p.1.toNat defaultRecord)) else none)
      = [] := by
  induction n with
  | zero => rfl
  | succ n ih =>
      rw [List.replicate_succ, List.filterMap_cons]
      have : ¬ (0 : Int) ≤ -1 := by decide
      rw [if_neg this, ih]

lemma searchDb_eq_map (embed : String → List ℚ) (db : VectorDB) (query : String) (k : Nat) :
    searchDb embed db query k
      = ((rankedVectors (embed query) db.vectors).take k).map
          (fun p => resultOf p.2 (db.metadata.getD p.1 defaultRecord)) := by
  unfold searchDb faissSearchL2
  rw [List.filterMap_append, filterMap_valid_rows, filterMap_pad_rows, List.append_nil]

lemma rankedVectors_length (q : List ℚ) (vs : List (List ℚ)) :
    (rankedVectors q vs).length = vs.length := by
  rw [rankedVectors, (List.perm_insertionSort distLe _).length_eq, List.enum_length,
    List.length_map]

lemma rankedVectors_sorted (q : List ℚ) (vs : List (List ℚ)) :
    List.Sorted distLe (rankedVectors q vs) :=
  List.sorted_insertionSort distLe _

lemma rankedVectors_mem (q : List ℚ) (vs : List (List ℚ)) (p : Nat × ℚ)
    (h : p ∈ rankedVectors q vs) :
    p.1 < vs.length ∧ p.2 = sqDist q (vs.getD p.1 []) := by
  have hmem : p ∈ (vs.map (sqDist q)).enum :=
    ((List.perm_insertionSort distLe _).mem_iff).mp h
  have hget := List.mem_enum_iff_getElem?.mp hmem
  rw [List.getElem?_map] at hget
  rcases Option.map_eq_some'.mp hget with ⟨v, hv, hs⟩
  have hlt : p.1 < vs.length := (List.getElem?_eq_some.mp hv).1
  refine ⟨hlt, ?_⟩
  rw [List.getD_eq_getElem?_getD, hv, Option.getD_some]
  exact hs.symm

lemma rankedVectors_nodup_fst (q : List ℚ) (vs : List (List ℚ)) :
    ((rankedVectors q vs).map Prod.fst).Nodup := by
  have hperm : ((rankedVectors q vs).map Prod.fst).Perm
      (((vs.map (sqDist q)).enum).map Prod.fst) :=
    List.Perm.map Prod.fst (List.perm_insertionSort distLe _)
  rw [hperm.nodup_iff, List.enum_map_fst]
  exact List.nodup_range _

/-- C5 amended. With the stored vectors and metadata in parallel, `search`
returns exactly `min k n` rows (`n` the number of stored records): the rows
are the `k` best entries of the ranking that orders stored vectors by
ascending squared-L2 distance to the embedded query with ties broken by
insertion position; each row is built from one distinct stored record via
`resultOf` — carrying the record's text, source path, file type, original name
and position string but not its `chunk_id` — with the raw (squared-L2)
distance as its score, and the returned scores are non-decreasing. -/
theorem C5_search_ordered_minkn (embed : String → List ℚ) (db : VectorDB)
    (q : String) (k : Nat) (h : db.vectors.length = db.metadata.length) :
    searchDb embed db q k
      = ((rankedVectors (embed q) db.vectors).take k).map
          (fun p => resultOf p.2 (db.metadata.getD p.1 defaultRecord))
    ∧ (searchDb embed db q k).length = min k db.metadata.length
    ∧ List.Sorted distLe ((rankedVectors (embed q) db.vectors).take k)
    ∧ (((rankedVectors (embed q) db.vectors).take k).map Prod.fst).Nodup
    ∧ (∀ p ∈ (rankedVectors (embed q) db.vectors).take k,
        p.1 < db.metadata.length ∧ p.2 = sqDist (embed q) (db.vectors.getD p.1 []))
    ∧ List.Sorted (fun a b : SearchResult => a.score ≤ b.score) (searchDb embed db q k) := by
  have hsorted : List.Sorted distLe ((rankedVectors (embed q) db.vectors).take k) :=
    List.Pairwise.sublist (List.take_sublist k _) (rankedVectors_sorted (embed q) db.vectors)
  refine ⟨searchDb_eq_map embed db q k, ?_, hsorted, ?_, ?_, ?_⟩
  · rw [searchDb_eq_map, List.length_map, List.length_take, rankedVectors_length, h]
  · exact List.Nodup.sublist
      (List.Sublist.map Prod.fst (List.take_sublist k _))
      (rankedVectors_nodup_fst (embed q) db.vectors)
  · intro p hp
    have hm := rankedVectors_mem (embed q) db.vectors p
      (List.Sublist.mem hp (List.take_sublist k _))
    exact ⟨h ▸ hm.1, hm.2⟩
  · rw [searchDb_eq_map]
    exact List.Pairwise.map _
      (fun a b hab => by
        rcases hab with hlt | ⟨heq, _⟩
        · exact le_of_lt hlt
        · exact le_of_eq heq)
      hsorted

/-- Witness for C5 (amended) on the spec's three-record scenario. -/
theorem C5_search_ordered_minkn_witness :
    (searchDb (fun _ => [(9 : ℚ)/10, 1/10, 0, 0])
        ⟨4, [[(1 : ℚ), 0, 0, 0], [(0 : ℚ), 1, 0, 0], [(0 : ℚ), 0, 1, 0]],
         [⟨"a", "1_1", "s", "txt", "n", 0, 1⟩,
          ⟨"b", "1_2", "s", "txt", "n", 1, 2⟩,
          ⟨"c", "1_3", "s", "txt", "n", 2, 3⟩]⟩ "q" 2).length = min 2 3 :=
  (C5_search_ordered_minkn (fun _ => [(9 : ℚ)/10, 1/10, 0, 0])
    ⟨4, [[(1 : ℚ), 0, 0, 0], [(0 : ℚ), 1, 0, 0], [(0 : ℚ), 0, 1, 0]],
     [⟨"a", "1_1", "s", "txt", "n", 0, 1⟩,
      ⟨"b", "1_2", "s", "txt", "n", 1, 2⟩,
      ⟨"c", "1_3", "s", "txt", "n", 2, 3⟩]⟩ "q" 2 rfl).2.1

/-- C5 counterexample. Two databases whose sole stored records differ only in
`chunk_id` produce identical `search` output: the result rows do not carry the
full metadata record (the `chunk_id` field is dropped when the row is built),
so the claim that each result is paired with its full metadata record fails. -/
theorem C5_result_drops_chunk_id_counterexample :
    searchDb (fun _ => [(0 : ℚ), 0])
        ⟨2, [[(1 : ℚ), 0]], [⟨"t", "1_1", "s", "txt", "n", 0, 1⟩]⟩ "q" 1
      = searchDb (fun _ => [(0 : ℚ), 0])
        ⟨2, [[(1 : ℚ), 0]], [⟨"t", "1_2", "s", "txt", "n", 0, 1⟩]⟩ "q" 1
    ∧ (⟨"t", "1_1", "s", "txt", "n", 0, 1⟩ : IndexRecord)
        ≠ ⟨"t", "1_2", "s", "txt", "n", 0, 1⟩ := by
  constructor
  · rfl
  · decide

/-- C6. `search` never fails for an absent or empty index: on any database
with zero stored vectors — in particular the fresh database `_init_vector_db`
builds when the persisted files do not exist — it returns the empty result
list, for every query and every `k`. -/
theorem C6_search_empty_graceful (embed : String → List ℚ) (d k : Nat) (q : String)
    (db : VectorDB) (h : db.vectors = []) :
    searchDb embed db q k = [] ∧ searchDb embed (initVectorDb d none) q k = [] := by
  have hempty : ∀ db' : VectorDB, db'.vectors = [] → searchDb embed db' q k = [] := by
    intro db' h'
    rw [searchDb_eq_map, h']
    have hr : rankedVectors (embed q) [] = [] := rfl
    rw [hr, List.take_nil]
    rfl
  exact ⟨hempty db h, hempty _ rfl⟩

/-- Witness for C6 on a concrete empty index. -/
theorem C6_search_empty_graceful_witness :
    searchDb (fun _ => [(1 : ℚ)]) ⟨1, [], [⟨"t", "1_1", "s", "txt", "n", 0, 1⟩]⟩ "q" 5 = [] :=
  (C6_search_empty_graceful (fun _ => [(1 : ℚ)]) 1 5 "q"
    ⟨1, [], [⟨"t", "1_1", "s", "txt", "n", 0, 1⟩]⟩ rfl).1

/-- Python's `text.split('\n')`: split at every newline character, keeping
empty pieces; the empty string yields one empty piece. -/
def splitLinesAux : List Char → List Char → List String
  | [], acc => [String.mk acc.reverse]
  | c :: cs, acc =>
      if c = '\n' then String.mk acc.reverse :: splitLinesAux cs []
      else splitLinesAux cs (c :: acc)

def splitLines (s : String) : List String :=
  splitLinesAux s.toList []

/-- Python's `'\n'.join(lines)`. -/
def joinLines : List String → String
  | [] => ""
  | [l] => l
  | l :: ls => l ++ "\n" ++ joinLines ls

/-- The character class of the level-1 heading pattern of `preprocess_text`
(file_processor.py line 72): `^([一二三四五六七八九十]+、)(.+)`. -/
def cnNums : List Char := ['一', '二', '三', '四', '五', '六', '七', '八', '九', '十']

/-- Match of `^([一二三四五六七八九十]+、)(.+)` against a line, returning the
matched text `group(1) + group(2)`. Since `、` is not in the character class,
the greedy `+` is equivalent to taking the maximal run of class characters,
which must be non-empty and followed by `、` and at least one character; `.`
matches anything but a newline. -/
def sec1Match (cs : List Char) : Option (List Char) :=
  let pre := cs.takeWhile (fun c => cnNums.contains c)
  match cs.dropWhile (fun c => cnNums.contains c) with
  | [] => none
  | d :: tail =>
      let body := tail.takeWhile (fun c => c ≠ '\n')
      if pre.isEmpty then none
      else if d = '、' then (if body.isEmpty then none else some (pre ++ d :: body))
      else none

/-- Match of `^(\d+\.)(.+)` (file_processor.py line 74) against a line,
returning the matched text; same greedy analysis with the digit class and the
literal dot. -/
def sec2Match (cs : List Char) : Option (List Char) :=
  let pre := cs.takeWhile Char.isDigit
  match cs.dropWhile Char.isDigit with
  | [] => none
  | d :: tail =>
      let body := tail.takeWhile (fun c => c ≠ '\n')
      if pre.isEmpty then none
      else if d = '.' then (if body.isEmpty then none else some (pre ++ d :: body))
      else none

/-- One iteration of the line loop of `preprocess_text` (file_processor.py
lines 70-85): the level-1 pattern is checked first, then the level-2 pattern;
the first match wins and the matched heading is wrapped in open/close markers;
a line matching neither passes through unchanged. -/
def tagLine (line : String) : String :=
  match sec1Match line.toList with
  | some m => "[SECTION_1]" ++ String.mk m ++ "[/SECTION_1]"
  | none =>
      match sec2Match line.toList with
      | some m => "[SECTION_2]" ++ String.mk m ++ "[/SECTION_2]"
      | none => line

/-- `preprocess_text` (file_processor.py lines 65-87). -/
def preprocess (text : String) : String :=
  joinLines ((splitLines text).map tagLine)

lemma sec1Match_head (cs : List Char) (m : List Char) (h : sec1Match cs = some m) :
    ∃ c rest, cs = c :: rest ∧ cnNums.contains c = true := by
  cases cs with
  | nil => simp [sec1Match] at h
  | cons c rest =>
      by_cases hc : cnNums.contains c
      · exact ⟨c, rest, rfl, hc⟩
      · exfalso
        simp only [sec1Match, List.takeWhile_cons, List.dropWhile_cons, hc] at h
        simp at h

lemma sec2Match_head (cs : List Char) (m : List Char) (h : sec2Match cs = some m) :
    ∃ c rest, cs = c :: rest ∧ c.isDigit = true := by
  cases cs with
  | nil => simp [sec2Match] at h
  | cons c rest =>
      by_cases hc : c.isDigit
      · exact ⟨c, rest, rfl, hc⟩
      · exfalso
        simp only [sec2Match, List.takeWhile_cons, List.dropWhile_cons, hc] at h
        simp at h

/-- The two heading patterns are disjoint: a class character of the level-1
pattern is never a digit, so no line matches both. -/
lemma sec_match_disjoint (cs : List Char) :
    sec1Match cs = none ∨ sec2Match cs = none := by
  rcases h1 : sec1Match cs with _ | m1
  · exact Or.inl rfl
  · rcases h2 : sec2Match cs with _ | m2
    · exact Or.inr rfl
    · exfalso
      rcases sec1Match_head cs m1 h1 with ⟨c, rest, rfl, hc⟩
      rcases sec2Match_head _ m2 h2 with ⟨c', rest', heq, hd⟩
      rw [List.cons.injEq] at heq
      rw [← heq.1] at hd
      have hall : ∀ x ∈ cnNums, x.isDigit = false := by decide
      have hmem : c ∈ cnNums := by simpa using hc
      rw [hall c hmem] at hd
      exact Bool.false_ne_true hd

lemma takeWhile_no_newline (cs tail : List Char) (d : Char) (hn : '\n' ∉ cs)
    (hcs : cs.takeWhile (fun c => cnNums.contains c) ++ d :: tail = cs ∨
           cs.takeWhile Char.isDigit ++ d :: tail = cs) :
    tail.takeWhile (fun c => c ≠ '\n') = tail := by
  rw [List.takeWhile_eq_self_iff]
  intro a ha
  have hacs : a ∈ cs := by
    rcases hcs with hcs | hcs
    · rw [← hcs]; exact List.mem_append_right _ (List.mem_cons_of_mem d ha)
    · rw [← hcs]; exact List.mem_append_right _ (List.mem_cons_of_mem d ha)
  simp only [ne_eq, decide_eq_true_eq]
  intro hEq
  exact hn (hEq ▸ hacs)

/-- A successful match on a newline-free line covers the whole line. -/
lemma sec1Match_eq_self (cs : List Char) (m : List Char) (hn : '\n' ∉ cs)
    (h : sec1Match cs = some m) : m = cs := by
  unfold sec1Match at h
  rcases hd : cs.dropWhile (fun c => cnNums.contains c) with _ | ⟨d, tail⟩
  · rw [hd] at h; exact Option.noConfusion h
  · rw [hd] at h
    have hcs : cs.takeWhile (fun c => cnNums.contains c) ++ d :: tail = cs := by
      rw [← hd, List.takeWhile_append_dropWhile]
    have htail : tail.takeWhile (fun c => c ≠ '\n') = tail :=
      takeWhile_no_newline cs tail d hn (Or.inl hcs)
    dsimp only at h
    split_ifs at h with hp hdl hb
    have hm := (Option.some.inj h).symm
    rw [hm, htail]
    exact hcs

/-- A successful match on a newline-free line covers the whole line. -/
lemma sec2Match_eq_self (cs : List Char) (m : List Char) (hn : '\n' ∉ cs)
    (h : sec2Match cs = some m) : m = cs := by
  unfold sec2Match at h
  rcases hd : cs.dropWhile Char.isDigit with _ | ⟨d, tail⟩
  · rw [hd] at h; exact Option.noConfusion h
  · rw [hd] at h
    have hcs : cs.takeWhile Char.isDigit ++ d :: tail = cs := by
      rw [← hd, List.takeWhile_append_dropWhile]
    have htail : tail.takeWhile (fun c => c ≠ '\n') = tail :=
      takeWhile_no_newline cs tail d hn (Or.inr hcs)
    dsimp only at h
    split_ifs at h with hp hdl hb
    have hm := (Option.some.inj h).symm
    rw [hm, htail]
    exact hcs

/-- C7. The tagger checks the level-1 enumerated-heading pattern before the
numeric sub-heading pattern and the two patterns are disjoint, so at most one
tag is applied per line; a matching newline-free line is wrapped verbatim in
the corresponding open/close markers, a line matching neither (blank lines
included) passes through unchanged, and the three-line scenario from the spec
is reproduced exactly. -/
theorem C7_tagger_first_match :
    preprocess "一、总则\n1.定义\n内容A"
      = "[SECTION_1]一、总则[/SECTION_1]\n[SECTION_2]1.定义[/SECTION_2]\n内容A"
    ∧ (∀ line : String, sec1Match line.toList = none → sec2Match line.toList = none →
        tagLine line = line)
    ∧ (∀ cs : List Char, sec1Match cs = none ∨ sec2Match cs = none)
    ∧ (∀ (line : String) (m : List Char), '\n' ∉ line.toList →
        sec1Match line.toList = some m →
        tagLine line = "[SECTION_1]" ++ line ++ "[/SECTION_1]")
    ∧ (∀ (line : String) (m : List Char), '\n' ∉ line.toList →
        sec2Match line.toList = some m →
        tagLine line = "[SECTION_2]" ++ line ++ "[/SECTION_2]") := by
  refine ⟨by decide, ?_, sec_match_disjoint, ?_, ?_⟩
  · intro line h1 h2
    unfold tagLine
    rw [h1, h2]
  · intro line m hn h1
    unfold tagLine
    rw [h1, sec1Match_eq_self line.toList m hn h1]
    rfl
  · intro line m hn h2
    have h1 : sec1Match line.toList = none := by
      rcases sec_match_disjoint line.toList with h | h
      · exact h
      · rw [h] at h2; exact absurd h2 (by simp)
    unfold tagLine
    rw [h1, h2, sec2Match_eq_self line.toList m hn h2]
    rfl

/-- Witness for C7: pass-through and wrapping at concrete lines. -/
theorem C7_tagger_first_match_witness :
    tagLine "内容A" = "内容A"
    ∧ tagLine "1.定义" = "[SECTION_2]1.定义[/SECTION_2]" :=
  ⟨C7_tagger_first_match.2.1 "内容A" (by decide) (by decide),
   C7_tagger_first_match.2.2.2.2 "1.定义" "1.定义".toList (by decide) (by decide)⟩

/-- Python's `str.strip()`: remove leading and trailing whitespace. -/
def pyStrip (s : String) : String :=
  String.mk (((s.toList.dropWhile Char.isWhitespace).reverse.dropWhile Char.isWhitespace).reverse)

/-- Match of the anchored marker pattern, e.g.
`^\[SECTION_1\](.+?)\[/SECTION_1\]$` (text_chunker.py lines 25-26), against a
line: the line must start with the opening marker, end with the closing
marker, and hold at least one character between them; with both anchors the
lazy group is exactly the text between the first opening marker and the final
closing marker. -/
def markerBody (pre suf line : String) : Option String :=
  if pre.toList.isPrefixOf line.toList ∧ suf.toList.isSuffixOf line.toList
      ∧ pre.length + suf.length < line.length then
    some (String.mk ((line.toList.drop pre.length).take
      (line.length - pre.length - suf.length)))
  else none

/-- One structured `Document` built by `StructuredTextLoader.load`
(text_chunker.py lines 35-44): the joined content lines plus the metadata
fields `section1`, `section2`, `start_line`, `end_line`. -/
structure StructDoc where
  page_content : String
  section1 : String
  section2 : String
  start_line : Nat
  end_line : Nat
deriving DecidableEq, Repr

/-- The loop state of `StructuredTextLoader.load`: emitted documents, the
current `current_section1` / `current_section2`, and the accumulating
`current_content` buffer. -/
structure LoadState where
  docs : List StructDoc
  section1 : String
  section2 : String
  buf : List String
deriving DecidableEq, Repr

/-- The flush performed on a marker (and at end of input): if the buffer is
non-empty, emit it as one document tagged with the state's current section
path (text_chunker.py lines 33-45); `i` is the index of the line being
processed. -/
def flushDoc (st : LoadState) (i : Nat) : List StructDoc :=
  if st.buf.isEmpty then st.docs
  else st.docs ++ [⟨joinLines st.buf, st.section1, st.section2,
                    i - st.buf.length, i - 1⟩]

/-- One iteration of the line loop of `StructuredTextLoader.load`
(text_chunker.py lines 29-73): a level-1 marker flushes the buffer under the
current path, then sets `section1` to the stripped title and resets
`section2`; a level-2 marker flushes, then sets only `section2`; a non-blank
ordinary line accumulates; a blank line is dropped. -/
def loadStep (st : LoadState) (i : Nat) (line : String) : LoadState :=
  match markerBody "[SECTION_1]" "[/SECTION_1]" line with
  | some t => ⟨flushDoc st i, pyStrip t, "", []⟩
  | none =>
      match markerBody "[SECTION_2]" "[/SECTION_2]" line with
      | some t => ⟨flushDoc st i, st.section1, pyStrip t, []⟩
      | none =>
          if pyStrip line ≠ "" then
            ⟨st.docs, st.section1, st.section2, st.buf ++ [line]⟩
          else st

def runLoad : LoadState → Nat → List String → LoadState
  | st, _, [] => st
  | st, i, l :: ls => runLoad (loadStep st i l) (i + 1) ls

/-- `StructuredTextLoader.load` over the split lines (text_chunker.py lines
28-88): run the line loop from the empty state, then flush the final buffer
with `i = len(lines)`. -/
def loadLines (lines : List String) : List StructDoc :=
  flushDoc (runLoad ⟨[], "", "", []⟩ 0 lines) lines.length

/-- `StructuredTextLoader.load` on the file content. -/
def loadFile (content : String) : List StructDoc :=
  loadLines (splitLines content)

/-- C8. The loader's marker transitions: a level-1 marker flushes the
(non-empty) buffer as a document tagged with the section path current before
the marker, then sets `section1` to the new title and resets `section2` to
empty; a level-2 marker flushes the same way and updates only `section2`,
leaving `section1` unchanged; a flush with an empty buffer emits nothing; and
over any run of ordinary content lines both section values persist
unchanged. -/
theorem C8_loader_transitions (st : LoadState) (i : Nat) (line t : String) :
    (markerBody "[SECTION_1]" "[/SECTION_1]" line = some t →
      loadStep st i line = ⟨flushDoc st i, pyStrip t, "", []⟩)
    ∧ (markerBody "[SECTION_1]" "[/SECTION_1]" line = none →
       markerBody "[SECTION_2]" "[/SECTION_2]" line = some t →
      loadStep st i line = ⟨flushDoc st i, st.section1, pyStrip t, []⟩)
    ∧ (st.buf = [] → flushDoc st i = st.docs)
    ∧ (st.buf ≠ [] → flushDoc st i
        = st.docs ++ [⟨joinLines st.buf, st.section1, st.section2,
                       i - st.buf.length, i - 1⟩])
    ∧ (∀ lines : List String,
        (∀ l ∈ lines, markerBody "[SECTION_1]" "[/SECTION_1]" l = none
          ∧ markerBody "[SECTION_2]" "[/SECTION_2]" l = none) →
        (runLoad st i lines).section1 = st.section1
          ∧ (runLoad st i lines).section2 = st.section2) := by
  refine ⟨?_, ?_, ?_, ?_, ?_⟩
  · intro h1
    unfold loadStep
    rw [h1]
  · intro h1 h2
    unfold loadStep
    rw [h1, h2]
  · intro hb
    unfold flushDoc
    rw [if_pos (List.isEmpty_iff.mpr hb)]
  · intro hb
    unfold flushDoc
    rw [if_neg (fun hc => hb (List.isEmpty_iff.mp hc))]
  · intro lines
    induction lines generalizing st i with
    | nil => intro _; exact ⟨rfl, rfl⟩
    | cons l ls ih =>
        intro hall
        have hl := hall l (List.mem_cons_self l ls)
        have hstep : (loadStep st i l).section1 = st.section1
            ∧ (loadStep st i l).section2 = st.section2 := by
          unfold loadStep
          rw [hl.1, hl.2]
          by_cases hblank : pyStrip l ≠ ""
          · rw [if_pos hblank]; exact ⟨rfl, rfl⟩
          · rw [if_neg hblank]; exact ⟨rfl, rfl⟩
        have hrest := ih (loadStep st i l) (i + 1)
          (fun x hx => hall x (List.mem_cons_of_mem l hx))
        exact ⟨by rw [show runLoad st i (l :: ls) = runLoad (loadStep st i l) (i + 1) ls from rfl,
                  hrest.1, hstep.1],
               by rw [show runLoad st i (l :: ls) = runLoad (loadStep st i l) (i + 1) ls from rfl,
                  hrest.2, hstep.2]⟩

/-- Witness for C8: the level-1 transition on a concrete non-empty buffer. -/
theorem C8_loader_transitions_witness :
    loadStep ⟨[], "老", "旧", ["内容A"]⟩ 1 "[SECTION_1]一、总则[/SECTION_1]"
      = ⟨[⟨"内容A", "老", "旧", 0, 0⟩], "一、总则", "", []⟩ := by
  have h := (C8_loader_transitions ⟨[], "老", "旧", ["内容A"]⟩ 1
    "[SECTION_1]一、总则[/SECTION_1]" "一、总则").1 (by decide)
  rw [h]
  rfl

/-- The heading text prepended to every chunk, `title_prefix` in
`chunk_and_save_parsed_files` (text_chunker.py lines 136-141): Python
truthiness makes the empty string falsy, so a non-empty value is produced only
when `section1` is non-empty. -/
def titleHead (s1 s2 : String) : String :=
  if s1 ≠ "" ∧ s2 ≠ "" then s1 ++ "-" ++ s2 ++ "\n\n"
  else if s1 ≠ "" then s1 ++ "\n\n"
  else ""

/-- Fuel-indexed body splitter; `splitBody` supplies `body.length` as fuel,
which suffices because each step consumes at least `chunk_size - overlap ≥ 1`
characters. -/
def splitGo (cs ov : Nat) : Nat → List Char → List (List Char)
  | 0, body => [body]
  | fuel + 1, body =>
      if body.length ≤ cs then [body]
      else body.take cs :: splitGo cs ov fuel (body.drop (cs - ov))

/-- Modelled from the spec: the external langchain
`RecursiveCharacterTextSplitter` (text_chunker.py lines 96-101, not part of
src/) is modelled as the spec's size/overlap-bounded character splitter — a
body at most `chunk_size` characters long is one slice; a longer body yields a
first slice of exactly `chunk_size` characters and continues `overlap`
characters before that slice's end, so consecutive slices share `overlap`
characters. -/
def splitBody (cs ov : Nat) (body : List Char) : List (List Char) :=
  splitGo cs ov body.length body

/-- The chunk texts emitted for one structured document
(text_chunker.py lines 126-143): every body slice gets the same
`title_prefix` prepended. -/
def chunkTexts (cs ov : Nat) (d : StructDoc) : List String :=
  (splitBody cs ov d.page_content.toList).map
    (fun s => titleHead d.section1 d.section2 ++ String.mk s)

lemma splitGo_head_take (cs ov : Nat) (hov : ov ≤ cs) (fuel : Nat)
    (body y : List Char) (h : (splitGo cs ov fuel body).head? = some y) :
    y.take ov = body.take ov := by
  cases fuel with
  | zero =>
      have : y = body := by
        simp only [splitGo, List.head?_cons, Option.some.injEq] at h
        exact h.symm
      rw [this]
  | succ fuel =>
      by_cases hb : body.length ≤ cs
      · simp only [splitGo, hb, if_true, List.head?_cons, Option.some.injEq] at h
        rw [← h]
      · simp only [splitGo, hb, if_false, List.head?_cons, Option.some.injEq] at h
        rw [← h, List.take_take, Nat.min_eq_left hov]

lemma splitGo_slice_le (cs ov : Nat) (hov : ov < cs) :
    ∀ (fuel : Nat) (body : List Char), body.length ≤ fuel →
    ∀ s ∈ splitGo cs ov fuel body, s.length ≤ cs := by
  intro fuel
  induction fuel with
  | zero =>
      intro body hlen s hs
      have hnil : body = [] := List.length_eq_zero.mp (Nat.le_zero.mp hlen)
      rw [hnil] at hs
      simp only [splitGo, List.mem_singleton] at hs
      rw [hs]
      exact Nat.zero_le cs
  | succ fuel ih =>
      intro body hlen s hs
      by_cases hb : body.length ≤ cs
      · simp only [splitGo, hb, if_true, List.mem_singleton] at hs
        rw [hs]; exact hb
      · simp only [splitGo, hb, if_false, List.mem_cons] at hs
        rcases hs with hs | hs
        · rw [hs, List.length_take]
          exact Nat.min_le_left cs body.length
        · refine ih (body.drop (cs - ov)) ?_ s hs
          rw [List.length_drop]
          omega

lemma splitGo_chain (cs ov : Nat) (hov : ov < cs) :
    ∀ (fuel : Nat) (body : List Char), body.length ≤ fuel →
    List.Chain' (fun a b => a.length = cs ∧ List.drop (cs - ov) a = List.take ov b)
      (splitGo cs ov fuel body) := by
  intro fuel
  induction fuel with
  | zero => intro body _; exact List.chain'_singleton body
  | succ fuel ih =>
      intro body hlen
      by_cases hb : body.length ≤ cs
      · simp only [splitGo, hb, if_true]
        exact List.chain'_singleton body
      · simp only [splitGo, hb, if_false]
        rw [List.chain'_cons']
        have hrest : (body.drop (cs - ov)).length ≤ fuel := by
          rw [List.length_drop]; omega
        refine ⟨?_, ih (body.drop (cs - ov)) hrest⟩
        intro y hy
        refine ⟨?_, ?_⟩
        · rw [List.length_take]; omega
        · rw [List.drop_take, show cs - (cs - ov) = ov by omega,
            splitGo_head_take cs ov (Nat.le_of_lt hov) fuel (body.drop (cs - ov)) y hy]

/-- C9. For `chunk_size ≥ 1` and `overlap < chunk_size`, every emitted chunk
is the section-path heading followed by a body slice of at most `chunk_size`
characters — the heading length is excluded from the bound, so the total chunk
length exceeds the slice length by exactly the heading length — and inside one
content group every non-final slice has exactly `chunk_size` characters whose
last `overlap` characters are shared with the start of the next slice. -/
theorem C9_chunk_size_bound (cs ov : Nat) (d : StructDoc)
    (h1 : 0 < cs) (h2 : ov < cs) :
    (∀ c ∈ chunkTexts cs ov d, ∃ s : List Char,
        c = titleHead d.section1 d.section2 ++ String.mk s
        ∧ s.length ≤ cs
        ∧ c.length = (titleHead d.section1 d.section2).length + s.length)
    ∧ List.Chain' (fun a b => a.length = cs ∧ List.drop (cs - ov) a = List.take ov b)
        (splitBody cs ov d.page_content.toList) := by
  constructor
  · intro c hc
    rcases List.mem_map.mp hc with ⟨s, hs, rfl⟩
    refine ⟨s, rfl, splitGo_slice_le cs ov h2 _ _ (Nat.le_refl _) s hs, ?_⟩
    rw [String.length_append]
    rfl
  · exact splitGo_chain cs ov h2 _ _ (Nat.le_refl _)

/-- Witness for C9 on a concrete oversized body (chunk_size 5, overlap 2). -/
theorem C9_chunk_size_bound_witness :
    List.Chain' (fun a b : List Char => a.length = 5 ∧ List.drop 3 a = List.take 2 b)
      (splitBody 5 2 ("abcdefghijk".toList)) :=
  (C9_chunk_size_bound 5 2 ⟨"abcdefghijk", "T", "", 0, 0⟩
    (by decide) (by decide)).2

/-- C10. A level-2 heading seen before any level-1 heading yields documents
with empty `section1` and the stripped level-2 title as `section2`; since a
non-empty heading text is produced only when `section1` is non-empty, such
chunks carry an empty heading and the `section2` title does not appear in the
chunk text at all. -/
theorem C10_empty_sec1_no_title :
    (∀ s2 : String, titleHead "" s2 = "")
    ∧ (∀ s1 s2 : String, titleHead s1 s2 ≠ "" → s1 ≠ "")
    ∧ loadLines ["[SECTION_2]1.定义[/SECTION_2]", "内容A"]
        = [⟨"内容A", "", "1.定义", 1, 1⟩]
    ∧ chunkTexts 500 100 ⟨"内容A", "", "1.定义", 1, 1⟩ = ["内容A"]
    ∧ (∀ c ∈ chunkTexts 500 100 ⟨"内容A", "", "1.定义", 1, 1⟩,
        ¬ List.IsInfix ("1.定义".toList) c.toList) := by
  refine ⟨?_, ?_, by decide, by decide, ?_⟩
  · intro s2
    simp [titleHead]
  · intro s1 s2 h hs1
    rw [hs1] at h
    exact h (by simp [titleHead])
  · intro c hc
    have : c = "内容A" := by
      rw [show chunkTexts 500 100 ⟨"内容A", "", "1.定义", 1, 1⟩ = ["内容A"] by decide] at hc
      exact List.mem_singleton.mp hc
    rw [this]
    decide

/-- Witness for C10: the level-2 title is absent from the concrete chunk. -/
theorem C10_empty_sec1_no_title_witness :
    ¬ List.IsInfix ("1.定义".toList) ("内容A".toList) :=
  C10_empty_sec1_no_title.2.2.2.2 "内容A" (by decide)

end RagKB
